import Mathlib

/-!
Verification of the core logic of `pdf2svgslides` (src/main.rs): the
dimension/scale calculator (`check_dimension`, `scale_ratio`, `scale_rect`),
the thumbnail pixel repacking loop inside `render_thumbnail`, and the
page-selection loop in `main`.

Modelling conventions:
* Bytes are modelled as `Nat` (the repacking loop only copies bytes, it never
  does arithmetic on them).
* Rust `f64` values are modelled exactly: finite values as rationals plus a
  NaN value (`F64`); the ideal rational arithmetic makes explicit the
  "absent floating-point rounding" reading of the numeric contracts.
* A Rust slice indexing panic is modelled by returning `none`: the loop model
  checks every index against the length before reading or writing, exactly
  the checks the Rust runtime performs.
-/

/-- Functional form of the repacking transform: each 4-byte group
`b0 :: b1 :: b2 :: pad` of the raster buffer becomes the 3-byte group
`b2 :: b1 :: b0` of the packed RGB buffer. Used as the specification that the
imperative loop model `repackGo` is proved to implement. -/
def repackFun : List Nat → List Nat
  | b0 :: b1 :: b2 :: _ :: rest => b2 :: b1 :: b0 :: repackFun rest
  | _ => []

/-- Model of the repacking loop of `render_thumbnail` (src/main.rs lines
158-165): state `(i, j)` are the read and write cursors, `rgb` is the output
vector. One iteration reads `data[i+2]`, `data[i+1]`, `data[i]`, writes them
at `j`, `j+1`, `j+2`, and advances `i` by 4 and `j` by 3. Any out-of-bounds
index (a Rust panic) yields `none`: the three reads are in bounds iff
`i + 2 < data.length` (their indices are `i ≤ i+1 ≤ i+2`) and the three
writes iff `j + 2 < rgb.length`, so one check per group models the runtime
bounds checks exactly, and `getD`'s default is never reached when the check
passes. The `fuel` parameter only makes the recursion structural: each
iteration advances `i` by 4 while the loop runs only as long as
`i < data.length`, so a starting fuel of `data.length + 1` strictly bounds
the number of iterations; the `fuel = 0` branch is unreachable from `repack`
(proved, not assumed, by `repackGo_spec` below). -/
def repackGo (data : List Nat) : Nat → Nat → Nat → List Nat → Option (List Nat)
  | 0, _, _, _ => none
  | fuel + 1, i, j, rgb =>
    if i < data.length then
      if i + 2 < data.length then
        if j + 2 < rgb.length then
          repackGo data fuel (i + 4) (j + 3)
            (((rgb.set j (data.getD (i + 2) 0)).set (j + 1) (data.getD (i + 1) 0)).set
              (j + 2) (data.getD i 0))
        else none
      else none
    else some rgb

/-- Model of the repacking step of `render_thumbnail` (src/main.rs lines
154-166): allocate `vec![0; len - len/4]` and run the loop from `i = 0`,
`j = 0`. -/
def repack (data : List Nat) : Option (List Nat) :=
  repackGo data (data.length + 1) 0 0 (List.replicate (data.length - data.length / 4) 0)

example : repack [10, 20, 30, 40, 50, 60, 70, 80] = some [30, 20, 10, 70, 60, 50] := by decide

example : repack [1, 2] = none := by decide

/-- Decomposition of a list with at least three elements. -/
lemma exists_cons3 (l : List Nat) (h : 3 ≤ l.length) :
    ∃ a b c t, l = a :: b :: c :: t := by
  rcases l with _ | ⟨a, _ | ⟨b, _ | ⟨c, t⟩⟩⟩
  · simp at h
  · simp at h
  · simp at h
  · exact ⟨a, b, c, t, rfl⟩

/-- Decomposition of a list with at least four elements. -/
lemma exists_cons4 (l : List Nat) (h : 4 ≤ l.length) :
    ∃ a b c d t, l = a :: b :: c :: d :: t := by
  rcases l with _ | ⟨a, _ | ⟨b, _ | ⟨c, _ | ⟨d, t⟩⟩⟩⟩
  · simp at h
  · simp at h
  · simp at h
  · simp at h
  · exact ⟨a, b, c, d, t, rfl⟩

/-- Unfolding equation of `repackFun` on one full 4-byte pixel group. -/
lemma repackFun_cons4 (b0 b1 b2 b3 : Nat) (t : List Nat) :
    repackFun (b0 :: b1 :: b2 :: b3 :: t) = b2 :: b1 :: b0 :: repackFun t := rfl

/-- Loop invariant of the repacking loop: started at pixel `p` (cursors
`i = 4p`, `j = 3p`) with `k` pixels left to process and enough fuel, the loop
succeeds, keeps the first `3p` output bytes it has already produced, and
fills the rest with `repackFun` of the unread input suffix. -/
lemma repackGo_spec : ∀ (k p fuel : Nat) (data rgb : List Nat),
    data.length = 4 * p + 4 * k →
    rgb.length = 3 * p + 3 * k →
    k < fuel →
    repackGo data fuel (4 * p) (3 * p) rgb
      = some (rgb.take (3 * p) ++ repackFun (data.drop (4 * p))) := by
  intro k
  induction k with
  | zero =>
    intro p fuel data rgb hd hr hf
    obtain ⟨f, rfl⟩ : ∃ f, fuel = f + 1 := ⟨fuel - 1, by omega⟩
    simp only [repackGo]
    rw [if_neg (by omega : ¬ 4 * p < data.length)]
    rw [show 3 * p = rgb.length by omega, show 4 * p = data.length by omega,
      List.take_length, List.drop_length]
    rw [show repackFun [] = [] from rfl, List.append_nil]
  | succ k ih =>
    intro p fuel data rgb hd hr hf
    obtain ⟨f, rfl⟩ : ∃ f, fuel = f + 1 := ⟨fuel - 1, by omega⟩
    have hdt : 4 ≤ (data.drop (4 * p)).length := by rw [List.length_drop]; omega
    obtain ⟨b0, b1, b2, b3, t, ht⟩ := exists_cons4 _ hdt
    have hrt : 3 ≤ (rgb.drop (3 * p)).length := by rw [List.length_drop]; omega
    obtain ⟨c0, c1, c2, v, hv⟩ := exists_cons3 _ hrt
    have hget : ∀ m, data.get? (4 * p + m) = (b0 :: b1 :: b2 :: b3 :: t).get? m := by
      intro m; rw [← ht, List.get?_drop]
    have hg2 : data.getD (4 * p + 2) 0 = b2 := by
      rw [List.getD_eq_get?, hget]; rfl
    have hg1 : data.getD (4 * p + 1) 0 = b1 := by
      rw [List.getD_eq_get?, hget]; rfl
    have hg0 : data.getD (4 * p) 0 = b0 := by
      have h0 := hget 0
      rw [Nat.add_zero] at h0
      rw [List.getD_eq_get?, h0]; rfl
    have hulen : (rgb.take (3 * p)).length = 3 * p := by
      rw [List.length_take]; exact min_eq_left (by omega)
    have hrgb : rgb = rgb.take (3 * p) ++ (c0 :: c1 :: c2 :: v) := by
      conv_lhs => rw [← List.take_append_drop (3 * p) rgb]
      rw [hv]
    have hvlen : v.length = 3 * k := by
      have := congrArg List.length hv
      simp only [List.length_drop, List.length_cons] at this
      omega
    simp only [repackGo]
    rw [if_pos (show 4 * p < data.length by omega),
      if_pos (show 4 * p + 2 < data.length by omega),
      if_pos (show 3 * p + 2 < rgb.length by omega)]
    rw [hg2, hg1, hg0]
    have hset : ((rgb.set (3 * p) b2).set (3 * p + 1) b1).set (3 * p + 2) b0
        = rgb.take (3 * p) ++ (b2 :: b1 :: b0 :: v) := by
      conv_lhs => rw [hrgb]
      rw [List.set_append_right _ _ (by omega : (rgb.take (3 * p)).length ≤ 3 * p)]
      rw [hulen, Nat.sub_self]
      rw [List.set_append_right _ _ (by omega : (rgb.take (3 * p)).length ≤ 3 * p + 1)]
      rw [hulen, show 3 * p + 1 - 3 * p = 1 by omega]
      rw [List.set_append_right _ _ (by omega : (rgb.take (3 * p)).length ≤ 3 * p + 2)]
      rw [hulen, show 3 * p + 2 - 3 * p = 2 by omega]
      rfl
    rw [hset]
    have hrec := ih (p + 1) f data (rgb.take (3 * p) ++ (b2 :: b1 :: b0 :: v))
      (by omega)
      (by simp only [List.length_append, List.length_cons, hulen]; omega)
      (by omega)
    rw [show 4 * (p + 1) = 4 * p + 4 by ring, show 3 * (p + 1) = 3 * p + 3 by ring] at hrec
    rw [hrec]
    rw [show 3 * p + 3 = (rgb.take (3 * p)).length + 3 from by rw [hulen], List.take_append]
    rw [show 4 * p + 4 = 4 * p + 4 from rfl, ← List.drop_drop, ht]
    rw [repackFun_cons4, List.append_assoc]
    rfl

/-- Under the multiple-of-4 length precondition the imperative loop computes
exactly the functional repacking transform. -/
lemma repack_eq_repackFun (data : List Nat) (n : Nat) (h : data.length = 4 * n) :
    repack data = some (repackFun data) := by
  have hrep : (List.replicate (data.length - data.length / 4) 0).length = 3 * 0 + 3 * n := by
    rw [List.length_replicate]; omega
  have hmain := repackGo_spec n 0 (data.length + 1) data
    (List.replicate (data.length - data.length / 4) 0) (by omega) hrep (by omega)
  unfold repack
  simpa using hmain

/-- Length of the functional repacking transform: 4 input bytes per pixel
become 3 output bytes per pixel. -/
lemma repackFun_length : ∀ (k : Nat) (l : List Nat), l.length = 4 * k →
    (repackFun l).length = 3 * k := by
  intro k
  induction k with
  | zero =>
    intro l hl
    have h0 : l = [] := List.length_eq_zero.mp (by omega)
    rw [h0]
    rfl
  | succ k ih =>
    intro l hl
    obtain ⟨b0, b1, b2, b3, t, ht⟩ := exists_cons4 l (by omega)
    subst ht
    rw [repackFun_cons4]
    simp only [List.length_cons] at hl ⊢
    rw [ih t (by omega)]
    omega

/-- Dropping `3p` output bytes corresponds to dropping `4p` input bytes. -/
lemma repackFun_drop : ∀ (p : Nat) (l : List Nat), 4 * p ≤ l.length →
    (repackFun l).drop (3 * p) = repackFun (l.drop (4 * p)) := by
  intro p
  induction p with
  | zero => intro l _; simp
  | succ p ih =>
    intro l h
    obtain ⟨b0, b1, b2, b3, t, ht⟩ := exists_cons4 l (by omega)
    subst ht
    simp only [List.length_cons] at h
    rw [repackFun_cons4]
    rw [show 3 * (p + 1) = 3 * p + 1 + 1 + 1 by ring,
      List.drop_succ_cons, List.drop_succ_cons, List.drop_succ_cons]
    rw [show 4 * (p + 1) = 4 * p + 1 + 1 + 1 + 1 by ring,
      List.drop_succ_cons, List.drop_succ_cons, List.drop_succ_cons, List.drop_succ_cons]
    exact ih t (by omega)

/-- Channel-order law for the functional transform: the three output bytes of
pixel `p` are the input bytes at offsets `4p+2`, `4p+1`, `4p`. -/
lemma repackFun_get? (l : List Nat) (p : Nat) (h : 4 * p + 3 < l.length) :
    (repackFun l).get? (3 * p) = l.get? (4 * p + 2) ∧
    (repackFun l).get? (3 * p + 1) = l.get? (4 * p + 1) ∧
    (repackFun l).get? (3 * p + 2) = l.get? (4 * p) := by
  have hd4 : 4 ≤ (l.drop (4 * p)).length := by rw [List.length_drop]; omega
  obtain ⟨b0, b1, b2, b3, t, ht⟩ := exists_cons4 _ hd4
  have hfd := repackFun_drop p l (by omega)
  have hL : ∀ r, (repackFun l).get? (3 * p + r) = (repackFun (l.drop (4 * p))).get? r := by
    intro r; rw [← hfd, List.get?_drop]
  have hR : ∀ r, l.get? (4 * p + r) = (b0 :: b1 :: b2 :: b3 :: t).get? r := by
    intro r; rw [← ht, List.get?_drop]
  refine ⟨?_, ?_, ?_⟩
  · have h0 := hL 0
    rw [Nat.add_zero] at h0
    rw [h0, ht, repackFun_cons4, hR 2]
    rfl
  · rw [hL 1, ht, repackFun_cons4, hR 1]
    rfl
  · have h0 := hR 0
    rw [Nat.add_zero] at h0
    rw [hL 2, ht, repackFun_cons4, h0]
    rfl

/-- Writing any byte `x` at a padding offset `4p+3` does not change the
repacked output. -/
lemma repackFun_set_pad : ∀ (p : Nat) (l : List Nat) (x : Nat),
    repackFun (l.set (4 * p + 3) x) = repackFun l := by
  intro p
  induction p with
  | zero =>
    intro l x
    rcases l with _ | ⟨b0, _ | ⟨b1, _ | ⟨b2, _ | ⟨b3, t⟩⟩⟩⟩ <;> rfl
  | succ p ih =>
    intro l x
    rcases l with _ | ⟨b0, _ | ⟨b1, _ | ⟨b2, _ | ⟨b3, t⟩⟩⟩⟩
    · rfl
    · rw [show 4 * (p + 1) + 3 = 4 * p + 3 + 1 + 1 + 1 + 1 by ring]
      rfl
    · rw [show 4 * (p + 1) + 3 = 4 * p + 3 + 1 + 1 + 1 + 1 by ring]
      rfl
    · rw [show 4 * (p + 1) + 3 = 4 * p + 3 + 1 + 1 + 1 + 1 by ring]
      rfl
    · rw [show 4 * (p + 1) + 3 = 4 * p + 3 + 1 + 1 + 1 + 1 by ring,
        List.set_cons_succ, List.set_cons_succ, List.set_cons_succ, List.set_cons_succ,
        repackFun_cons4, repackFun_cons4, ih]

/-- C1: Repack channel-order law: for every input raster buffer of length
`4·n` and every pixel index `p < n`, the repacking step succeeds and the
output holds at offsets `3p`, `3p+1`, `3p+2` exactly the input bytes at
offsets `4p+2`, `4p+1`, `4p` (red, green, blue), and the output is
independent of the padding byte at offset `4p+3`. -/
theorem repack_channel_order (data : List Nat) (n p : Nat)
    (hlen : data.length = 4 * n) (hp : p < n) :
    ∃ out, repack data = some out ∧
      out.get? (3 * p) = data.get? (4 * p + 2) ∧
      out.get? (3 * p + 1) = data.get? (4 * p + 1) ∧
      out.get? (3 * p + 2) = data.get? (4 * p) ∧
      ∀ x, repack (data.set (4 * p + 3) x) = some out := by
  have h1 := repack_eq_repackFun data n hlen
  have hg := repackFun_get? data p (by omega)
  refine ⟨repackFun data, h1, hg.1, hg.2.1, hg.2.2, ?_⟩
  intro x
  have h2 := repack_eq_repackFun (data.set (4 * p + 3) x) n
    (by rw [List.length_set]; exact hlen)
  rw [h2, repackFun_set_pad]

/-- Witness for C1 at the 2-pixel buffer `[9, 8, 7, 6, 50, 40, 30, 20]`,
pixel index 1: output byte `3·1` is input byte `4·1+2`. -/
theorem repack_channel_order_witness :
    (repack [9, 8, 7, 6, 50, 40, 30, 20]).bind (fun out => out.get? (3 * 1))
      = [9, 8, 7, 6, 50, 40, 30, 20].get? (4 * 1 + 2) := by
  obtain ⟨out, h1, h2, -, -, -⟩ :=
    repack_channel_order [9, 8, 7, 6, 50, 40, 30, 20] 2 1 (by decide) (by decide)
  rw [h1]
  exact h2

/-- C2: Repack size law: for an input of length `4·n` the repacking step
succeeds, the output length is `input_length − input_length/4 = 3·n`, and
every output position `k < 3·n` is written by the loop: it equals the input
byte at offset `4·(k/3) + (2 − k%3)`. -/
theorem repack_size_law (data : List Nat) (n : Nat) (hlen : data.length = 4 * n) :
    ∃ out, repack data = some out ∧
      out.length = data.length - data.length / 4 ∧
      out.length = 3 * n ∧
      ∀ k, k < out.length → out.get? k = data.get? (4 * (k / 3) + (2 - k % 3)) := by
  refine ⟨repackFun data, repack_eq_repackFun data n hlen, ?_, ?_, ?_⟩
  · rw [repackFun_length n data hlen]; omega
  · exact repackFun_length n data hlen
  · intro k hk
    rw [repackFun_length n data hlen] at hk
    obtain ⟨p, r, hr, rfl⟩ : ∃ p r, r < 3 ∧ k = 3 * p + r :=
      ⟨k / 3, k % 3, by omega, by omega⟩
    rw [show (3 * p + r) / 3 = p by omega, show (3 * p + r) % 3 = r by omega]
    have hg := repackFun_get? data p (by omega)
    rcases (by omega : r = 0 ∨ r = 1 ∨ r = 2) with rfl | rfl | rfl
    · simpa using hg.1
    · simpa using hg.2.1
    · simpa using hg.2.2

/-- Witness for C2 at a 16-byte (2×2-pixel) buffer: the repacked length is
exactly 12. -/
theorem repack_size_law_witness :
    (repack [1, 2, 3, 4, 5, 6, 7, 8, 9, 10, 11, 12, 13, 14, 15, 16]).map List.length
      = some 12 := by
  obtain ⟨out, h1, -, h3, -⟩ :=
    repack_size_law [1, 2, 3, 4, 5, 6, 7, 8, 9, 10, 11, 12, 13, 14, 15, 16] 4 (by decide)
  rw [h1, Option.map_some', h3]

/-- C6: Repack safety under the length precondition: when the input length is
a multiple of 4, every index used by the loop is in bounds, i.e. the loop
model (which returns `none` exactly when a bounds check fails) returns
`some`. -/
theorem repack_no_oob (data : List Nat) (h : 4 ∣ data.length) :
    (repack data).isSome = true := by
  obtain ⟨n, hn⟩ := h
  rw [repack_eq_repackFun data n hn]
  rfl

/-- Witness for C6 at a 4-byte buffer. -/
theorem repack_no_oob_witness : (repack [1, 2, 3, 4]).isSome = true :=
  repack_no_oob [1, 2, 3, 4] (by decide)

/-- Model of the IEEE f64 values this program meets: finite values exactly as
rationals, plus NaN. The ideal rational arithmetic makes the spec's
"absent floating-point rounding" reading explicit; NaN is kept because the
comparison-based validation treats it specially. -/
inductive F64 where
  | finite : ℚ → F64
  | nan : F64
deriving DecidableEq

/-- IEEE `<` on modelled f64 values: every comparison with NaN is false. -/
def F64.lt : F64 → F64 → Bool
  | .finite a, .finite b => decide (a < b)
  | _, _ => false

/-- IEEE `>` on modelled f64 values: every comparison with NaN is false. -/
def F64.gt : F64 → F64 → Bool
  | .finite a, .finite b => decide (b < a)
  | _, _ => false

/-- Rust `as u32` on a finite f64 value: round toward zero, saturating at the
ends of the u32 range (Rust float-to-int cast semantics). For `q ≥ 0`
truncation toward zero is the floor. -/
def rustCastU32 (q : ℚ) : Nat :=
  if q < 0 then 0 else min ⌊q⌋.toNat 4294967295

/-- Rust `as u32` on a modelled f64 value: NaN casts to 0. -/
def F64.asU32 : F64 → Nat
  | .finite q => rustCastU32 q
  | .nan => 0

/-- Model of `check_dimension` (src/main.rs lines 191-201): reject a negative
dimension, reject one above `u32::MAX` (whose f64 image `4294967295.0` is
exact), otherwise cast to u32. -/
def check_dimension (dim : F64) : Except String Nat :=
  if F64.lt dim (.finite 0) then .error "value is negative"
  else if F64.gt dim (.finite 4294967295) then .error "value is too large"
  else .ok (F64.asU32 dim)

/-- Model of `scale_ratio` (src/main.rs lines 179-185): `max_size / side`
with `side = max w h`, and `0` when `side = 0`. `f64::from` on u32 values is
exact; the division is modelled without rounding. -/
def scale_ratio (w h max_size : Nat) : ℚ :=
  let side := max w h
  if side = 0 then 0 else (max_size : ℚ) / (side : ℚ)

/-- Model of `scale_rect` (src/main.rs lines 187-189): scale each axis by the
ratio and cast with Rust `as u32`, each axis independently. -/
def scale_rect (w h : Nat) (ratio : ℚ) : Nat × Nat :=
  (rustCastU32 ((w : ℚ) * ratio), rustCastU32 ((h : ℚ) * ratio))

/-- The saturating cast agrees with the floor on the representable range. -/
lemma rustCastU32_eq_floor (q : ℚ) (h0 : 0 ≤ q) (h1 : q ≤ 4294967295) :
    rustCastU32 q = ⌊q⌋₊ := by
  unfold rustCastU32
  rw [if_neg (not_lt.mpr h0)]
  have h2 : (⌊q⌋ : ℚ) ≤ 4294967295 := le_trans (Int.floor_le q) h1
  have h3 : ⌊q⌋ ≤ (4294967295 : ℤ) := by exact_mod_cast h2
  rw [min_eq_left (by omega), Int.floor_toNat]

/-- The saturating cast of a nonnegative value never exceeds the value. -/
lemma rustCastU32_le (q : ℚ) (h0 : 0 ≤ q) : (rustCastU32 q : ℚ) ≤ q := by
  unfold rustCastU32
  rw [if_neg (not_lt.mpr h0)]
  have h1 : (⌊q⌋.toNat : ℚ) ≤ q := by
    rw [Int.floor_toNat]
    exact Nat.floor_le h0
  calc ((min ⌊q⌋.toNat 4294967295 : Nat) : ℚ) ≤ (⌊q⌋.toNat : ℚ) := by
        exact_mod_cast min_le_left _ _
    _ ≤ q := h1

/-- C3: Dimension validation: a negative dimension errors, a dimension above
`u32::MAX` errors, and every dimension `d` with `0 ≤ d ≤ u32::MAX` is
accepted with value `floor d` (truncation toward zero), never an error. -/
theorem check_dimension_spec (q : ℚ) :
    (q < 0 → check_dimension (.finite q) = .error "value is negative") ∧
    ((4294967295 : ℚ) < q → check_dimension (.finite q) = .error "value is too large") ∧
    (0 ≤ q → q ≤ 4294967295 → check_dimension (.finite q) = .ok ⌊q⌋₊) := by
  refine ⟨?_, ?_, ?_⟩
  · intro h
    simp [check_dimension, F64.lt, h]
  · intro h
    have h0 : ¬ q < 0 := by intro hc; exact absurd h (by linarith)
    simp [check_dimension, F64.lt, F64.gt, h, h0]
  · intro h0 h1
    have hn : ¬ q < 0 := not_lt.mpr h0
    have hn2 : ¬ (4294967295 : ℚ) < q := not_lt.mpr h1
    simp only [check_dimension, F64.lt, F64.gt, F64.asU32, decide_eq_true_eq,
      if_neg hn, if_neg hn2, Bool.false_eq_true, if_false]
    rw [rustCastU32_eq_floor q h0 h1]

/-- Witness for C3 at `d = 7/2`: accepted, truncated to 3. -/
theorem check_dimension_spec_witness :
    check_dimension (.finite (7 / 2)) = .ok 3 := by
  have h := (check_dimension_spec (7 / 2)).2.2 (by norm_num) (by norm_num)
  rw [h, show ⌊(7 / 2 : ℚ)⌋₊ = 3 from by rw [← Int.floor_toNat]; norm_num; rfl]

/-- C9: a NaN dimension passes both comparisons (every IEEE comparison with
NaN is false) and is silently accepted as dimension 0. -/
theorem check_dimension_nan : check_dimension F64.nan = .ok 0 := rfl

/-- C4: Scale-ratio contract: with a positive `max_size`, the ratio is the
exact division `max_size / max w h` when `max w h > 0`, and exactly 0 when
both dimensions are 0 (no error, no division by zero). -/
theorem scale_ratio_spec (w h max_size : Nat) (hpos : 0 < max_size) :
    (0 < max w h → scale_ratio w h max_size = (max_size : ℚ) / (max w h : ℚ)) ∧
    (w = 0 → h = 0 → scale_ratio w h max_size = 0) := by
  constructor
  · intro hside
    simp only [scale_ratio]
    rw [if_neg (by omega), Nat.cast_max]
  · rintro rfl rfl
    rfl

/-- Witness for C4: the 1000×500 ratio is 512/1000, and the 0×0 ratio is 0. -/
theorem scale_ratio_spec_witness :
    scale_ratio 1000 500 512 = 512 / 1000 ∧ scale_ratio 0 0 512 = 0 := by
  constructor
  · rw [(scale_ratio_spec 1000 500 512 (by norm_num)).1 (by decide)]
    norm_num
  · exact (scale_ratio_spec 0 0 512 (by norm_num)).2 rfl rfl

/-- Counterexample to C5 as stated: the cast saturates, so for a ratio whose
product overflows u32 the result is not the floor of the product
(`scale_rect 1 1 2³³` yields `u32::MAX`, not `2³³`), and for a negative
ratio the result 0 is strictly greater than the product, not `≤` it. -/
theorem scale_rect_claim_counterexample :
    (scale_rect 1 1 ((2 : ℚ) ^ 33)).1 ≠ ⌊(1 : ℚ) * (2 : ℚ) ^ 33⌋₊ ∧
    ¬ (((scale_rect 1 1 (-1 : ℚ)).1 : ℚ) ≤ (1 : ℚ) * (-1 : ℚ)) := by
  constructor
  · have h1 : (scale_rect 1 1 ((2 : ℚ) ^ 33)).1 = 4294967295 := by
      norm_num [scale_rect, rustCastU32]
    have h2 : ⌊(1 : ℚ) * (2 : ℚ) ^ 33⌋₊ = 8589934592 := by
      rw [← Int.floor_toNat]; norm_num; rfl
    rw [h1, h2]
    norm_num
  · have h1 : (scale_rect 1 1 (-1 : ℚ)).1 = 0 := by
      norm_num [scale_rect, rustCastU32]
    rw [h1]
    norm_num

/-- C5 (amended): Scaled-dimensions contract: for a nonnegative ratio whose
per-axis product stays within the u32 range, `scale_rect` returns the
independently truncated `(floor (w·ratio), floor (h·ratio))`; for every
nonnegative ratio each output is `≤` the exact product (never rounds up);
both outputs are 0 when the ratio is 0. -/
theorem scale_rect_spec (w h : Nat) (r : ℚ) :
    (0 ≤ r → (w : ℚ) * r ≤ 4294967295 → (scale_rect w h r).1 = ⌊(w : ℚ) * r⌋₊) ∧
    (0 ≤ r → (h : ℚ) * r ≤ 4294967295 → (scale_rect w h r).2 = ⌊(h : ℚ) * r⌋₊) ∧
    (0 ≤ r → ((scale_rect w h r).1 : ℚ) ≤ (w : ℚ) * r ∧
      ((scale_rect w h r).2 : ℚ) ≤ (h : ℚ) * r) ∧
    (r = 0 → scale_rect w h r = (0, 0)) := by
  refine ⟨?_, ?_, ?_, ?_⟩
  · intro h0 h1
    exact rustCastU32_eq_floor _ (by positivity) h1
  · intro h0 h1
    exact rustCastU32_eq_floor _ (by positivity) h1
  · intro h0
    exact ⟨rustCastU32_le _ (by positivity), rustCastU32_le _ (by positivity)⟩
  · rintro rfl
    have hz : rustCastU32 0 = 0 := by norm_num [rustCastU32]
    show (rustCastU32 ((w : ℚ) * 0), rustCastU32 ((h : ℚ) * 0)) = (0, 0)
    rw [mul_zero, mul_zero, hz]

/-- Witness for C5 (amended) at `w = 10`, `h = 20`, `ratio = 7/2`:
the outputs are the truncated products `(35, 70)`. -/
theorem scale_rect_spec_witness : scale_rect 10 20 (7 / 2) = (35, 70) := by
  have h1 := (scale_rect_spec 10 20 (7 / 2)).1 (by norm_num) (by norm_num)
  have h2 := (scale_rect_spec 10 20 (7 / 2)).2.1 (by norm_num) (by norm_num)
  refine Prod.ext ?_ ?_
  · rw [h1, ← Int.floor_toNat]; norm_num; rfl
  · rw [h2, ← Int.floor_toNat]; norm_num; rfl

/-- With a positive side, scaling the side itself by `max_size / side` gives
back exactly `max_size` (when `max_size` is u32-representable). -/
lemma fit_eq (side max_size : Nat) (h0 : 0 < side) (hm : max_size ≤ 4294967295) :
    rustCastU32 ((side : ℚ) * ((max_size : ℚ) / (side : ℚ))) = max_size := by
  have hne : (side : ℚ) ≠ 0 := Nat.cast_ne_zero.mpr (by omega)
  rw [mul_comm, div_mul_cancel₀ _ hne]
  rw [rustCastU32_eq_floor _ (by positivity) (by exact_mod_cast hm)]
  exact Nat.floor_natCast max_size

/-- Scaling a dimension `d ≤ side` by `max_size / side` never exceeds
`max_size`. -/
lemma fit_le (d side max_size : Nat) (hd : d ≤ side) (h0 : 0 < side) :
    rustCastU32 ((d : ℚ) * ((max_size : ℚ) / (side : ℚ))) ≤ max_size := by
  have hq0 : (0 : ℚ) ≤ (d : ℚ) * ((max_size : ℚ) / (side : ℚ)) := by positivity
  have hle : (d : ℚ) * ((max_size : ℚ) / (side : ℚ)) ≤ (max_size : ℚ) := by
    rw [mul_div_assoc']
    rw [div_le_iff (by exact_mod_cast h0)]
    have hcast : (d : ℚ) ≤ (side : ℚ) := by exact_mod_cast hd
    calc (d : ℚ) * (max_size : ℚ) ≤ (side : ℚ) * (max_size : ℚ) :=
          mul_le_mul_of_nonneg_right hcast (by positivity)
      _ = (max_size : ℚ) * (side : ℚ) := by ring
  have := le_trans (rustCastU32_le _ hq0) hle
  exact_mod_cast this

/-- C7: Fit-to-box exactness: with `max (w, h) > 0` and a u32 `max_size`,
scaling by `scale_ratio w h max_size` makes the axis holding the larger
input dimension exactly `max_size`, and both output dimensions are
`≤ max_size`. -/
theorem fit_to_box (w h max_size : Nat) (hside : 0 < max w h)
    (hm : max_size ≤ 4294967295) :
    ((max w h = w → (scale_rect w h (scale_ratio w h max_size)).1 = max_size) ∧
     (max w h = h → (scale_rect w h (scale_ratio w h max_size)).2 = max_size)) ∧
    (scale_rect w h (scale_ratio w h max_size)).1 ≤ max_size ∧
    (scale_rect w h (scale_ratio w h max_size)).2 ≤ max_size := by
  have hratio : scale_ratio w h max_size = (max_size : ℚ) / ((max w h : Nat) : ℚ) := by
    simp only [scale_ratio]
    rw [if_neg (by omega)]
  refine ⟨⟨?_, ?_⟩, ?_, ?_⟩
  · intro hw
    show rustCastU32 ((w : ℚ) * scale_ratio w h max_size) = max_size
    rw [hratio, show (w : ℚ) = ((max w h : Nat) : ℚ) from by rw [hw]]
    exact fit_eq (max w h) max_size hside hm
  · intro hh
    show rustCastU32 ((h : ℚ) * scale_ratio w h max_size) = max_size
    rw [hratio, show (h : ℚ) = ((max w h : Nat) : ℚ) from by rw [hh]]
    exact fit_eq (max w h) max_size hside hm
  · show rustCastU32 ((w : ℚ) * scale_ratio w h max_size) ≤ max_size
    rw [hratio]
    exact fit_le w (max w h) max_size (le_max_left w h) hside
  · show rustCastU32 ((h : ℚ) * scale_ratio w h max_size) ≤ max_size
    rw [hratio]
    exact fit_le h (max w h) max_size (le_max_right w h) hside

/-- Witness for C7 at the spec scenario 1000×500 with max side 512: the
ratio is 512/1000 = 0.512 and the thumbnail is exactly (512, 256). -/
theorem fit_to_box_witness :
    scale_ratio 1000 500 512 = 512 / 1000 ∧
    scale_rect 1000 500 (scale_ratio 1000 500 512) = (512, 256) := by
  have H := fit_to_box 1000 500 512 (by decide) (by norm_num)
  have hratio : scale_ratio 1000 500 512 = 512 / 1000 := by
    simp only [scale_ratio]
    rw [if_neg (by decide)]
    norm_num
  refine ⟨hratio, Prod.ext ?_ ?_⟩
  · exact H.1.1 (by decide)
  · rw [hratio]
    show rustCastU32 ((500 : ℚ) * (512 / 1000)) = 256
    norm_num [rustCastU32]
    rfl

/-- Cast of a u32 value to i32: two's-complement reinterpretation, as Rust
`number as i32` (src/main.rs line 72). -/
def u32AsI32 (n : Nat) : Int :=
  if n < 2147483648 then (n : Int) else (n : Int) - 4294967296

/-- Wrapping i32 arithmetic: normalise an integer into `[-2^31, 2^31)`
modulo `2^32` (release-mode Rust overflow semantics for `i32`). -/
def wrapI32 (z : Int) : Int :=
  (z + 2147483648) % 4294967296 - 2147483648

/-- Model of the page-index computation of `main` (src/main.rs line 72):
`(number as i32) - 1` with wrapping i32 subtraction. -/
def page_index (n : Nat) : Int :=
  wrapI32 (u32AsI32 n - 1)

/-- Model of the page loop of `main` (src/main.rs lines 77-99): visit the
0-based indices in order. An index `i` outside `0 ≤ i < pageCount` aborts the
whole run, returning `some i` as the error payload — `i` is exactly the
number interpolated into the "invalid page number" message on line 79. A
valid index renders page `1 + i` (the `page_number` of lines 82-98, whose
two output files are written) and the loop continues. The external
rendering collaborators are modelled as succeeding, since the claims settled
against this model concern selection-time errors only. Returns the 1-based
page numbers whose files were written, in order, and the abort payload. -/
def processPages (pageCount : Int) : List Int → List Int × Option Int
  | [] => ([], none)
  | i :: rest =>
    if i < 0 ∨ pageCount ≤ i then ([], some i)
    else
      let r := processPages pageCount rest
      ((1 + i) :: r.1, r.2)

/-- Model of a run with an explicit `--pages` selection (src/main.rs lines
71-75): the selected u32 page numbers are mapped through `page_index` and
the page loop runs over the resulting indices. -/
def run_selected (pageCount : Int) (numbers : List Nat) : List Int × Option Int :=
  processPages pageCount (numbers.map page_index)

/-- C8: selecting page 5 of a 3-page document aborts before any file is
written, but the error message identifies the page as `4` — the 0-based
index `5 - 1` — not as the user-supplied 1-based page number 5 (every other
message of `main` uses the 1-based `page_number = 1 + i`, and the usage text
documents pages as 1-based, so the spec's reading is the intent and line 79
prints the wrong number). -/
theorem page_five_of_three_message :
    run_selected 3 [5] = ([], some 4) ∧ (4 : Int) ≠ 5 := by
  constructor
  · rfl
  · decide

/-- Counterexample to C10 as stated: `n = 2^31` exceeds `i32::MAX`, yet its
computed index wraps to `+2147483647` (i32::MAX), not to a negative value,
so it is not rejected by the `i < 0` check. -/
theorem page_index_wrap_counterexample :
    2147483647 < (2147483648 : Nat) ∧
    page_index 2147483648 = 2147483647 ∧
    ¬ (page_index 2147483648 < 0) := by
  refine ⟨by norm_num, ?_, ?_⟩
  · rfl
  · decide

/-- C10 (amended): page-index bounds invariant: for any u32 selection `n`
and any i32 page count, the loop guard of src/main.rs line 78 admits `n`
exactly when `1 ≤ n ≤ page_count`, in which case the index is `n - 1`
(inside `0..page_count`); `n = 0` maps to `-1`; every `n > i32::MAX` other
than `n = 2^31` wraps negative; `n = 2^31` wraps to `+i32::MAX` and is
rejected by the `i ≥ page_count` check instead. -/
theorem page_index_bounds (n : Nat) (pageCount : Int)
    (hn : n ≤ 4294967295) (hpc0 : 0 ≤ pageCount) (hpc1 : pageCount ≤ 2147483647) :
    (¬ (page_index n < 0 ∨ pageCount ≤ page_index n) ↔
      (1 ≤ n ∧ (n : Int) ≤ pageCount)) ∧
    (1 ≤ n → (n : Int) ≤ pageCount → page_index n = (n : Int) - 1) ∧
    (n = 0 → page_index n = -1) ∧
    (2147483647 < n → n ≠ 2147483648 → page_index n < 0) ∧
    (n = 2147483648 → page_index n = 2147483647 ∧ pageCount ≤ page_index n) := by
  unfold page_index wrapI32 u32AsI32
  split_ifs with hc <;> omega

/-- Witness for C10 (amended) at `n = 2`, `page_count = 3`: the computed
index is `2 - 1 = 1`. -/
theorem page_index_bounds_witness : page_index 2 = (2 : Int) - 1 :=
  (page_index_bounds 2 3 (by norm_num) (by norm_num) (by norm_num)).2.1
    (by norm_num) (by norm_num)
